import Mathlib

/-!
Shallow embedding of `src/index.ts` of the quant-cloud-environment-var-action
repository: parsing of the three variable sources (.env file content, JSON
string, inline KEY=VALUE list), the merge of those sources, and the `run`
driver with its four operations (list / set / clear / delete) against an
abstract remote variables API.

JavaScript strings are modelled as Lean `String` (a wrapper around
`List Char`); most string manipulation is written over `List Char` so that the
semantics of `split`, `trim`, slicing etc. are explicit.  JavaScript object
literals used as string-keyed records are modelled as association lists in
insertion order, with `insertKV` reproducing the semantics of property
assignment / object spread: an existing key keeps its position and gets the
new value, a fresh key is appended.
-/

namespace QuantEnvAction

/-- The single-quote character (codepoint 39). -/
def squote : Char := Char.ofNat 39

/-- Whitespace as trimmed by `String.prototype.trim` (restricted to the ASCII
whitespace actually relevant here: space, tab, newline, carriage return). -/
def wsChar (c : Char) : Bool := c = ' ' || c = '\t' || c = '\n' || c = '\r'

/-- `trim` on character lists: drop whitespace from both ends. -/
def trimChars (cs : List Char) : List Char :=
  ((cs.dropWhile wsChar).reverse.dropWhile wsChar).reverse

/-- `String.prototype.trim`. -/
def strTrim (s : String) : String := String.mk (trimChars s.data)

/-- `String.prototype.split` on a class of single-character separators, as in
`s.split(/[\n,]/)` or `s.split('=')`: exact partition, empty fragments kept. -/
def splitChars (seps : List Char) : List Char → List (List Char)
  | [] => [[]]
  | c :: rest =>
    if seps.contains c then [] :: splitChars seps rest
    else
      match splitChars seps rest with
      | [] => [[c]]
      | l :: ls => (c :: l) :: ls

/-- `Array.prototype.join` with a single-character separator. -/
def joinWith (sep : Char) : List (List Char) → List Char
  | [] => []
  | [l] => l
  | l :: ls => l ++ sep :: joinWith sep ls

/-- JavaScript property assignment `obj[k] = v` on an insertion-ordered
record: an existing key keeps its position and receives the new value, a new
key is appended at the end.  Object spread `{...a, ...b}` is the left fold of
this operation over the entries of `b` starting from `a`. -/
def insertKV {κ ν : Type} [DecidableEq κ] (m : List (κ × ν)) (k : κ) (v : ν) :
    List (κ × ν) :=
  if k ∈ m.map Prod.fst then
    m.map (fun kv => if kv.1 = k then (kv.1, v) else kv)
  else m ++ [(k, v)]

/-- Property lookup `obj[k]` with a default for the absent case. -/
def lookupKV {κ ν : Type} [DecidableEq κ] (m : List (κ × ν)) (k : κ) (d : ν) : ν :=
  match m.find? (fun kv => decide (kv.1 = k)) with
  | some kv => kv.2
  | none => d

/-- Object spread: fold property assignment over a list of entries. -/
def spreadProps {κ ν : Type} [DecidableEq κ] (m : List (κ × ν))
    (props : List (κ × ν)) : List (κ × ν) :=
  props.foldl (fun acc kv => insertKV acc kv.1 kv.2) m

/-- JavaScript values produced by `JSON.parse` (numbers are kept as their
source lexeme, which is all the action ever does with them). -/
inductive Json where
  | null : Json
  | jbool (b : Bool) : Json
  | num (lexeme : String) : Json
  | str (s : String) : Json
  | arr (elems : List Json) : Json
  | obj (fields : List (String × Json)) : Json

/-- A JavaScript record whose values came from arbitrary sources.  The TS
declaration says `Record<string, string>` but nothing in the code validates
that values are strings, so the model keeps full `Json` values. -/
abbrev VarMap := List (String × Json)

/-- Whitespace accepted between JSON tokens by `JSON.parse`. -/
def jsonWs (c : Char) : Bool := c = ' ' || c = '\t' || c = '\n' || c = '\r'

/-- Skip inter-token whitespace. -/
def skipJsonWs (cs : List Char) : List Char := cs.dropWhile jsonWs

/-- Hexadecimal digit test for `\uXXXX` escapes. -/
def isHexDigit (c : Char) : Bool :=
  c.isDigit || ('a' ≤ c && c ≤ 'f') || ('A' ≤ c && c ≤ 'F')

/-- Value of a hexadecimal digit. -/
def hexVal (c : Char) : Nat :=
  if c.isDigit then c.toNat - 48
  else if 'a' ≤ c then c.toNat - 87
  else c.toNat - 55

/-- Single-character JSON string escapes. -/
def escChar (c : Char) : Option Char :=
  if c = '"' then some '"'
  else if c = '\\' then some '\\'
  else if c = '/' then some '/'
  else if c = 'b' then some (Char.ofNat 8)
  else if c = 'f' then some (Char.ofNat 12)
  else if c = 'n' then some '\n'
  else if c = 'r' then some '\r'
  else if c = 't' then some '\t'
  else none

/-- Body of a JSON string, after the opening quote: returns the decoded
characters and the input remaining after the closing quote. -/
def parseJsonString (fuel : Nat) (cs : List Char) : Option (List Char × List Char) :=
  match fuel with
  | 0 => none
  | fuel + 1 =>
    match cs with
    | [] => none
    | c :: rest =>
      if c = '"' then some ([], rest)
      else if c = '\\' then
        match rest with
        | 'u' :: h1 :: h2 :: h3 :: h4 :: rest2 =>
          if isHexDigit h1 && isHexDigit h2 && isHexDigit h3 && isHexDigit h4 then
            match parseJsonString fuel rest2 with
            | some (s, r) =>
              some (Char.ofNat (hexVal h1 * 4096 + hexVal h2 * 256 + hexVal h3 * 16 + hexVal h4) :: s, r)
            | none => none
          else none
        | e :: rest2 =>
          match escChar e with
          | some d =>
            match parseJsonString fuel rest2 with
            | some (s, r) => some (d :: s, r)
            | none => none
          | none => none
        | [] => none
      else if c.toNat < 32 then none
      else
        match parseJsonString fuel rest with
        | some (s, r) => some (c :: s, r)
        | none => none

/-- Maximal run of decimal digits. -/
def lexDigits (cs : List Char) : List Char × List Char :=
  (cs.takeWhile Char.isDigit, cs.dropWhile Char.isDigit)

/-- Optional fraction part `.digits` of a JSON number. -/
def lexFrac (cs : List Char) : Option (List Char × List Char) :=
  match cs with
  | '.' :: rest =>
    let p := lexDigits rest
    if p.1.isEmpty then none else some ('.' :: p.1, p.2)
  | _ => some ([], cs)

/-- Optional exponent part `[eE][+-]?digits` of a JSON number. -/
def lexExp (cs : List Char) : Option (List Char × List Char) :=
  match cs with
  | c :: rest =>
    if c = 'e' ∨ c = 'E' then
      let sp : List Char × List Char :=
        match rest with
        | '+' :: r => (['+'], r)
        | '-' :: r => (['-'], r)
        | _ => ([], rest)
      let p := lexDigits sp.2
      if p.1.isEmpty then none else some (c :: sp.1 ++ p.1, p.2)
    else some ([], cs)
  | [] => some ([], [])

/-- JSON number lexeme: `-?(0|[1-9][0-9]*)(\.[0-9]+)?([eE][+-]?[0-9]+)?`. -/
def lexJsonNumber (cs : List Char) : Option (List Char × List Char) :=
  let sp : List Char × List Char :=
    match cs with
    | '-' :: rest => (['-'], rest)
    | _ => ([], cs)
  match sp.2 with
  | [] => none
  | c :: rest =>
    let ip : Option (List Char × List Char) :=
      if c = '0' then some (sp.1 ++ ['0'], rest)
      else if c.isDigit then
        let p := lexDigits rest
        some (sp.1 ++ c :: p.1, p.2)
      else none
    match ip with
    | none => none
    | some (intPart, cs1) =>
      match lexFrac cs1 with
      | none => none
      | some (fracPart, cs2) =>
        match lexExp cs2 with
        | none => none
        | some (expPart, cs3) => some (intPart ++ fracPart ++ expPart, cs3)

mutual

/-- One JSON value starting at the head of the input (whitespace already
skipped); returns the value and the remaining input. -/
def parseJsonValue (fuel : Nat) (cs : List Char) : Option (Json × List Char) :=
  match fuel with
  | 0 => none
  | fuel + 1 =>
    match cs with
    | 'n' :: 'u' :: 'l' :: 'l' :: rest => some (Json.null, rest)
    | 't' :: 'r' :: 'u' :: 'e' :: rest => some (Json.jbool true, rest)
    | 'f' :: 'a' :: 'l' :: 's' :: 'e' :: rest => some (Json.jbool false, rest)
    | '"' :: rest =>
      match parseJsonString (rest.length + 1) rest with
      | some (s, r) => some (Json.str (String.mk s), r)
      | none => none
    | '[' :: rest =>
      match skipJsonWs rest with
      | ']' :: r => some (Json.arr [], r)
      | rest1 =>
        match parseJsonArray fuel rest1 with
        | some (xs, r) => some (Json.arr xs, r)
        | none => none
    | '{' :: rest =>
      match skipJsonWs rest with
      | '}' :: r => some (Json.obj [], r)
      | rest1 =>
        match parseJsonObject fuel rest1 with
        | some (fs, r) => some (Json.obj (spreadProps [] fs), r)
        | none => none
    | _ =>
      match lexJsonNumber cs with
      | some (lex, r) => some (Json.num (String.mk lex), r)
      | none => none

/-- Non-empty comma-separated JSON array elements up to the closing `]`. -/
def parseJsonArray (fuel : Nat) (cs : List Char) : Option (List Json × List Char) :=
  match fuel with
  | 0 => none
  | fuel + 1 =>
    match parseJsonValue fuel cs with
    | none => none
    | some (v, rest) =>
      match skipJsonWs rest with
      | ',' :: rest2 =>
        match parseJsonArray fuel (skipJsonWs rest2) with
        | some (xs, r) => some (v :: xs, r)
        | none => none
      | ']' :: rest2 => some ([v], rest2)
      | _ => none

/-- Non-empty comma-separated JSON object members up to the closing `}`,
in source order (duplicates collapsed by the caller via `spreadProps`,
matching `JSON.parse`: first position, last value). -/
def parseJsonObject (fuel : Nat) (cs : List Char) :
    Option (List (String × Json) × List Char) :=
  match fuel with
  | 0 => none
  | fuel + 1 =>
    match cs with
    | '"' :: rest =>
      match parseJsonString (rest.length + 1) rest with
      | none => none
      | some (k, rest1) =>
        match skipJsonWs rest1 with
        | ':' :: rest2 =>
          match parseJsonValue fuel (skipJsonWs rest2) with
          | none => none
          | some (v, rest3) =>
            match skipJsonWs rest3 with
            | ',' :: rest4 =>
              match parseJsonObject fuel (skipJsonWs rest4) with
              | some (fs, r) => some ((String.mk k, v) :: fs, r)
              | none => none
            | '}' :: rest4 => some ([(String.mk k, v)], rest4)
            | _ => none
        | _ => none
    | _ => none

end

/-- `JSON.parse`: one value, surrounded by optional whitespace, nothing after
it; `none` models the thrown `SyntaxError`. -/
def jsonParse (s : String) : Option Json :=
  match parseJsonValue (2 * s.data.length + 2) (skipJsonWs s.data) with
  | some (v, rest) => if (skipJsonWs rest).isEmpty then some v else none
  | none => none

/-- Own enumerable properties contributed by `{...v}` for each kind of
JavaScript value: objects give their entries, arrays and strings give
index-keyed entries, primitives give nothing. -/
def jsSpread : Json → List (String × Json)
  | Json.obj fs => fs
  | Json.arr xs => xs.enum.map (fun p => (Nat.repr p.1, p.2))
  | Json.str s => s.data.enum.map (fun p => (Nat.repr p.1, Json.str (String.mk [p.2])))
  | _ => []

/-- Quote stripping of `parseEnvFile` (index.ts lines 40-43): if the value
starts and ends with `"`, or starts and ends with `'`, drop the first and the
last character (`value.slice(1, -1)`). -/
def stripQuotesChars (v : List Char) : List Char :=
  if (v.head? = some '"' ∧ v.getLast? = some '"')
      ∨ (v.head? = some squote ∧ v.getLast? = some squote) then
    (v.drop 1).dropLast
  else v

/-- String-level wrapper of the quote stripping step. -/
def stripQuotesS (s : String) : String := String.mk (stripQuotesChars s.data)

/-- One line of a .env file (index.ts lines 28-46): trim; skip blank lines and
`#` comments; match `^([^=]+)=(.*)$` (non-empty run of non-`=` characters,
one `=`, rest of line); trim the key, trim the value, strip quotes. -/
def parseEnvLine (cs : List Char) : Option (List Char × List Char) :=
  if (trimChars cs).isEmpty then none
  else if (trimChars cs).head? = some '#' then none
  else if ((trimChars cs).dropWhile (fun c => !(c = '='))).isEmpty then none
  else if ((trimChars cs).takeWhile (fun c => !(c = '='))).isEmpty then none
  else
    some (trimChars ((trimChars cs).takeWhile (fun c => !(c = '='))),
      stripQuotesChars
        (trimChars (((trimChars cs).dropWhile (fun c => !(c = '='))).drop 1)))

/-- One step of the fold over the lines of a .env file:
`result[key] = value` for a parsed line, no-op otherwise. -/
def envStep (acc : List (List Char × List Char)) (line : List Char) :
    List (List Char × List Char) :=
  match parseEnvLine line with
  | some kv => insertKV acc kv.1 kv.2
  | none => acc

/-- `parseEnvFile` at the character-list level: split the content on newlines
and fold the parsed lines into a record. -/
def parseEnvList (cs : List Char) : List (List Char × List Char) :=
  (splitChars ['\n'] cs).foldl envStep []

/-- `parseEnvFile` (index.ts lines 24-50). -/
def parseEnvFile (content : String) : List (String × String) :=
  (parseEnvList content.data).map (fun kv => (String.mk kv.1, String.mk kv.2))

/-- The .env mapping as spread into the JS record (values are strings). -/
def envProps (content : String) : VarMap :=
  (parseEnvFile content).map (fun kv => (kv.1, Json.str kv.2))

/-- Inline `KEY=VALUE` section of `parseVariables` (index.ts lines 77-86):
split on newline or comma, keep fragments whose trim is non-empty, split each
fragment on every `=`; when the first part is non-empty and at least one `=`
was present, assign under the trimmed key the trimmed rejoin of the remaining
parts. -/
def applyInline (m : VarMap) (s : String) : VarMap :=
  let pairs := (splitChars ['\n', ','] s.data).filter (fun p => !(trimChars p).isEmpty)
  pairs.foldl
    (fun acc pair =>
      match splitChars ['='] pair with
      | [] => acc
      | key :: valueParts =>
        if !key.isEmpty && !valueParts.isEmpty then
          insertKV acc (String.mk (trimChars key))
            (Json.str (String.mk (trimChars (joinWith '=' valueParts))))
        else acc)
    m

/-- Fatal parse failures of `parseVariables`: `JSON.parse` throwing a
`SyntaxError` on an invalid JSON source. -/
inductive ParseError where
  | invalidJson (input : String) : ParseError
deriving DecidableEq

/-- `parseVariables` (index.ts lines 55-89): start from the empty record,
spread in the parsed .env file when an `env_file` input is present, then
spread in the `JSON.parse` of the `json_vars` input when present (invalid
JSON throws), then assign the inline `variables` pairs when present.  The
file-system read is abstracted as the `readFile` oracle. -/
def parseVariables (envFile jsonVars varsInput : String)
    (readFile : String → String) : Except ParseError VarMap :=
  let r1 : VarMap :=
    if envFile = "" then [] else spreadProps [] (envProps (readFile envFile))
  match
    (if jsonVars = "" then Except.ok r1
     else
       match jsonParse jsonVars with
       | none => Except.error (ParseError.invalidJson jsonVars)
       | some v => Except.ok (spreadProps r1 (jsSpread v))) with
  | Except.error e => Except.error e
  | Except.ok r2 =>
    Except.ok (if varsInput = "" then r2 else applyInline r2 varsInput)

/-- Key list of the delete operation (index.ts line 170): split on newline or
comma, trim, drop empties. -/
def parseKeys (s : String) : List String :=
  ((splitChars ['\n', ','] s.data).map (fun k => String.mk (trimChars k))).filter
    (fun k => !(k = ""))

/-- Error object thrown by the remote client, as inspected by the action:
`statusCode`, `body?.message` and `message`. -/
structure ApiError where
  statusCode : Option Nat
  bodyMessage : Option String
  message : String
deriving DecidableEq

/-- Remote calls issued by the action, in order. -/
inductive RemoteCall where
  | listCall : RemoteCall
  | bulkSet (env : VarMap) : RemoteCall
  | update (key : String) (value : Json) : RemoteCall
  | delete (key : String) : RemoteCall

/-- Responses of the remote variables API, one oracle per endpoint. -/
structure Remote where
  listR : Except ApiError VarMap
  bulkR : VarMap → Except ApiError Unit
  updateR : String → Json → Except ApiError Unit
  deleteR : String → Except ApiError Unit

/-- Action inputs as read through `core.getInput` (the empty string is what
`getInput` returns for an input that was not supplied). -/
structure Inputs where
  apiKey : String
  appName : String
  organization : String
  environmentName : String
  operationRaw : String
  replaceRaw : String
  baseUrlRaw : String
  envFile : String
  jsonVars : String
  varsInput : String
  keysInput : String

/-- Classified causes of `core.setFailed`: a thrown plain `Error` (missing
required input, usage errors), a `JSON.parse` failure, a rethrown remote
error. -/
inductive RunError where
  | usage (msg : String) : RunError
  | parse (e : ParseError) : RunError
  | api (e : ApiError) : RunError

/-- The message passed to `core.setFailed` (index.ts lines 287-289):
`body?.message || message` for API errors, the error message otherwise. -/
def renderError : RunError → String
  | RunError.usage msg => msg
  | RunError.parse _ => "Unexpected token in JSON"
  | RunError.api e => e.bodyMessage.getD e.message

/-- Values written through `core.setOutput`: numbers, strings, or the
JSON-serialized variable map of the list operation (whose exact
`JSON.stringify` text formatting is not modelled). -/
inductive OutputValue where
  | num (n : Nat) : OutputValue
  | str (s : String) : OutputValue
  | varsJson (m : VarMap) : OutputValue

/-- What one run leaves behind: the remote calls it made, the outputs it set,
and the `core.setFailed` message when the run was marked failed. -/
structure Outcome where
  calls : List RemoteCall
  outputs : List (String × OutputValue)
  failedMsg : Option String

/-- Intermediate result of the operation body: calls, outputs, error. -/
abbrev RunResult := List RemoteCall × List (String × OutputValue) × Option RunError

/-- LIST operation (index.ts lines 125-142). -/
def runList (r : Remote) : RunResult :=
  match r.listR with
  | Except.error e => ([RemoteCall.listCall], [], some (RunError.api e))
  | Except.ok m =>
    ([RemoteCall.listCall],
     [("variables", OutputValue.varsJson m), ("count", OutputValue.num m.length)],
     none)

/-- CLEAR operation (index.ts lines 145-165): one `bulkSet` with an empty
mapping; on success output the sentinel `'all'` and zero failures; rethrow
any error. -/
def runClear (r : Remote) : RunResult :=
  match r.bulkR [] with
  | Except.ok _ =>
    ([RemoteCall.bulkSet []],
     [("deleted_count", OutputValue.str "all"), ("failed_count", OutputValue.num 0)],
     none)
  | Except.error e => ([RemoteCall.bulkSet []], [], some (RunError.api e))

/-- Per-key loop of the DELETE operation (index.ts lines 181-196): success
and 404 count as deleted, anything else counts as failed, the loop always
continues. -/
def deleteStep (r : Remote) (acc : Nat × Nat × List RemoteCall) (key : String) :
    Nat × Nat × List RemoteCall :=
  match r.deleteR key with
  | Except.ok _ => (acc.1 + 1, acc.2.1, acc.2.2 ++ [RemoteCall.delete key])
  | Except.error e =>
    if e.statusCode = some 404 then
      (acc.1 + 1, acc.2.1, acc.2.2 ++ [RemoteCall.delete key])
    else (acc.1, acc.2.1 + 1, acc.2.2 ++ [RemoteCall.delete key])

def deleteLoop (r : Remote) (keys : List String) : Nat × Nat × List RemoteCall :=
  keys.foldl (deleteStep r) (0, 0, [])

/-- DELETE operation (index.ts lines 168-203). -/
def runDelete (i : Inputs) (r : Remote) : RunResult :=
  if i.keysInput = "" then
    ([], [], some (RunError.usage "Input required and not supplied: keys"))
  else
    let keys := parseKeys i.keysInput
    if keys.isEmpty then
      ([], [], some (RunError.usage "No keys provided for delete operation"))
    else
      let res := deleteLoop r keys
      (res.2.2,
       [("deleted_count", OutputValue.num res.1), ("failed_count", OutputValue.num res.2.1)],
       none)

/-- Per-key loop of merge-mode SET (index.ts lines 250-261): one `update`
call per key, counting successes and failures, never aborting. -/
def mergeStep (r : Remote) (vars : VarMap) (acc : Nat × Nat × List RemoteCall)
    (key : String) : Nat × Nat × List RemoteCall :=
  match r.updateR key (lookupKV vars key Json.null) with
  | Except.ok _ =>
    (acc.1 + 1, acc.2.1, acc.2.2 ++ [RemoteCall.update key (lookupKV vars key Json.null)])
  | Except.error _ =>
    (acc.1, acc.2.1 + 1, acc.2.2 ++ [RemoteCall.update key (lookupKV vars key Json.null)])

def mergeLoop (r : Remote) (vars : VarMap) (keys : List String) :
    Nat × Nat × List RemoteCall :=
  keys.foldl (mergeStep r vars) (0, 0, [])

/-- SET operation (index.ts lines 206-282): require a source, parse and merge
the sources, return silently on an empty merged map, then either one bulk
replace (errors produce the 0 / n outputs and are rethrown) or the per-key
merge loop (whose failure count, when positive, throws after the outputs are
set). -/
def runSet (i : Inputs) (readFile : String → String) (r : Remote)
    (replace : Bool) : RunResult :=
  if i.envFile = "" ∧ i.jsonVars = "" ∧ i.varsInput = "" then
    ([], [],
     some (RunError.usage
       "At least one of env_file, json_vars, or variables must be provided for set operation"))
  else
    match parseVariables i.envFile i.jsonVars i.varsInput readFile with
    | Except.error e => ([], [], some (RunError.parse e))
    | Except.ok vars =>
      let keys := vars.map Prod.fst
      if keys.isEmpty then ([], [], none)
      else if replace then
        let entries := keys.map (fun k => (k, lookupKV vars k Json.null))
        match r.bulkR entries with
        | Except.ok _ =>
          ([RemoteCall.bulkSet entries],
           [("updated_count", OutputValue.num keys.length),
            ("failed_count", OutputValue.num 0)],
           none)
        | Except.error e =>
          ([RemoteCall.bulkSet entries],
           [("updated_count", OutputValue.num 0),
            ("failed_count", OutputValue.num keys.length)],
           some (RunError.api e))
      else
        let res := mergeLoop r vars keys
        (res.2.2,
         [("updated_count", OutputValue.num res.1),
          ("failed_count", OutputValue.num res.2.1)],
         if res.2.1 > 0 then
           some (RunError.usage
             ("Failed to set " ++ Nat.repr res.2.1 ++ " variable(s)"))
         else none)

/-- Body of `run` (index.ts lines 107-284): required inputs, defaulting of
the operation, dispatch. -/
def runOp (i : Inputs) (readFile : String → String) (r : Remote) : RunResult :=
  if i.apiKey = "" then
    ([], [], some (RunError.usage "Input required and not supplied: api_key"))
  else if i.appName = "" then
    ([], [], some (RunError.usage "Input required and not supplied: app_name"))
  else if i.organization = "" then
    ([], [], some (RunError.usage "Input required and not supplied: organization"))
  else if i.environmentName = "" then
    ([], [], some (RunError.usage "Input required and not supplied: environment_name"))
  else
    let operation := if i.operationRaw = "" then "list" else i.operationRaw
    let replace := i.replaceRaw = "true"
    if operation = "list" then runList r
    else if operation = "clear" then runClear r
    else if operation = "delete" then runDelete i r
    else if operation = "set" then runSet i readFile r replace
    else
      ([], [],
       some (RunError.usage
         ("Unknown operation: " ++ operation ++ ". Valid operations are: list, set, clear, delete")))

/-- `run` (index.ts lines 107-295): the operation body inside the outer
try/catch that turns any thrown error into `core.setFailed`. -/
def runAction (i : Inputs) (readFile : String → String) (r : Remote) : Outcome :=
  let res := runOp i readFile r
  { calls := res.1, outputs := res.2.1, failedMsg := res.2.2.map renderError }

/-- Invariant of the keys produced by the env parser: non-empty, trimmed,
free of `=` and newline, and not starting with `#`. -/
def goodEnvKey (k : List Char) : Prop :=
  k ≠ [] ∧ trimChars k = k ∧ '=' ∉ k ∧ '\n' ∉ k ∧ k.head? ≠ some '#'

/-- Re-serialization of a parsed mapping into `KEY=VALUE` lines, as in the
spec's round-trip property. -/
def serializeEnv (m : List (String × String)) : String :=
  String.mk (joinWith '\n' (m.map (fun kv => kv.1.data ++ '=' :: kv.2.data)))

/-- Whether an `Except` result is a success. -/
def exOk {ε α : Type} : Except ε α → Bool
  | Except.ok _ => true
  | Except.error _ => false

/-- Number of keys whose individual `update` call succeeds. -/
def updateOkCount (r : Remote) (vars : VarMap) : Nat :=
  ((vars.map Prod.fst).filter
    (fun k => exOk (r.updateR k (lookupKV vars k Json.null)))).length

/-- Number of keys whose individual `update` call fails. -/
def updateErrCount (r : Remote) (vars : VarMap) : Nat :=
  ((vars.map Prod.fst).filter
    (fun k => !(exOk (r.updateR k (lookupKV vars k Json.null))))).length

/-- Whether a key counts as deleted: remote delete succeeded, or failed with
status 404 (already absent). -/
def deleteOkB (r : Remote) (k : String) : Bool :=
  match r.deleteR k with
  | Except.ok _ => true
  | Except.error e => decide (e.statusCode = some 404)

/-- Number of keys counted as deleted. -/
def deletedCount (r : Remote) (keys : List String) : Nat :=
  (keys.filter (deleteOkB r)).length

/-- Number of keys counted as failed deletions. -/
def deleteFailCount (r : Remote) (keys : List String) : Nat :=
  (keys.filter (fun k => !(deleteOkB r k))).length

/-- Valid required credentials/coordinates inputs. -/
def goodCreds (i : Inputs) : Prop :=
  i.apiKey ≠ "" ∧ i.appName ≠ "" ∧ i.organization ≠ "" ∧ i.environmentName ≠ ""

/-- A file-system oracle for runs that read no file. -/
def noReadFile : String → String := fun _ => ""

/-- A remote on which every call succeeds (listing an empty environment). -/
def okRemote : Remote :=
  { listR := Except.ok []
    bulkR := fun _ => Except.ok ()
    updateR := fun _ _ => Except.ok ()
    deleteR := fun _ => Except.ok () }

/-- Baseline inputs with valid credentials and nothing else supplied. -/
def baseInputs : Inputs :=
  { apiKey := "k", appName := "app", organization := "org"
    environmentName := "env", operationRaw := "", replaceRaw := ""
    baseUrlRaw := "", envFile := "", jsonVars := "", varsInput := ""
    keysInput := "" }

/-- A remote whose `update` fails for the key `B` only. -/
def mergeFailRemote : Remote :=
  { okRemote with
    updateR := fun k _ =>
      if k = "B" then Except.error ⟨none, none, "boom"⟩ else Except.ok () }

/-- A remote whose `delete` fails with a non-404 status for the key `B`. -/
def deleteFailRemote : Remote :=
  { okRemote with
    deleteR := fun k =>
      if k = "B" then Except.error ⟨some 500, none, "server error"⟩
      else Except.ok () }

/-- A remote whose `bulkSet` always fails. -/
def bulkFailRemote : Remote :=
  { okRemote with
    bulkR := fun _ => Except.error ⟨some 500, some "bulk failed", "bulk failed"⟩ }

/-- Inputs for a set run whose JSON source is not valid JSON. -/
def setBadJsonInputs : Inputs :=
  { baseInputs with operationRaw := "set", jsonVars := "not json" }

/-- Inputs for a merge-mode set run over three inline variables. -/
def setMergeInputs : Inputs :=
  { baseInputs with operationRaw := "set", varsInput := "A=1,B=2,C=3" }

/-- The mapping parsed from `A=1,B=2,C=3`. -/
def setMergeVars : VarMap :=
  [("A", Json.str "1"), ("B", Json.str "2"), ("C", Json.str "3")]

/-- Inputs for a replace-mode set run over three inline variables. -/
def setReplaceInputs : Inputs :=
  { baseInputs with
    operationRaw := "set"
    replaceRaw := "true"
    varsInput := "A=1,B=2,C=3" }

/-- Inputs for a delete run over the keys A, B, C. -/
def deleteInputs : Inputs :=
  { baseInputs with operationRaw := "delete", keysInput := "A,B,C" }

/-- Inputs for a clear run. -/
def clearInputs : Inputs :=
  { baseInputs with operationRaw := "clear" }

/-- Inputs for a replace-mode set run whose env file holds only a comment. -/
def setCommentInputs : Inputs :=
  { baseInputs with operationRaw := "set", replaceRaw := "true", envFile := "f" }

/-- A file-system oracle serving a comment-only .env file. -/
def commentReadFile : String → String := fun _ => "# only a comment"

/-! ### Lemmas about the string primitives -/

theorem splitChars_ne_nil (seps : List Char) (cs : List Char) :
    splitChars seps cs ≠ [] := by
  induction cs with
  | nil => simp [splitChars]
  | cons c rest ih =>
    simp only [splitChars]
    split
    · simp
    · cases h : splitChars seps rest with
      | nil => simp
      | cons l ls => simp [h]

theorem splitChars_sepFree {seps : List Char} {cs : List Char}
    (h : ∀ c ∈ cs, c ∉ seps) : splitChars seps cs = [cs] := by
  induction cs with
  | nil => rfl
  | cons c rest ih =>
    have hc : c ∉ seps := h c (List.mem_cons_self c rest)
    have hrest : ∀ x ∈ rest, x ∉ seps := fun x hx => h x (List.mem_cons_of_mem c hx)
    simp only [splitChars]
    rw [if_neg (by simpa using hc), ih hrest]

theorem splitChars_append_sep {seps : List Char} {xs ys : List Char} {c : Char}
    (hxs : ∀ a ∈ xs, a ∉ seps) (hc : c ∈ seps) :
    splitChars seps (xs ++ c :: ys) = xs :: splitChars seps ys := by
  induction xs with
  | nil =>
    simp only [List.nil_append, splitChars]
    rw [if_pos (by simpa using hc)]
  | cons a rest ih =>
    have ha : a ∉ seps := hxs a (List.mem_cons_self a rest)
    have hrest : ∀ x ∈ rest, x ∉ seps := fun x hx => hxs x (List.mem_cons_of_mem a hx)
    rw [List.cons_append]
    simp only [splitChars]
    rw [if_neg (by simpa using ha), ih hrest]

theorem mem_splitChars_sepFree {seps : List Char} {cs l : List Char}
    (hl : l ∈ splitChars seps cs) : ∀ c ∈ l, c ∉ seps := by
  induction cs generalizing l with
  | nil =>
    simp only [splitChars, List.mem_singleton] at hl
    subst hl; simp
  | cons c rest ih =>
    simp only [splitChars] at hl
    by_cases hc : seps.contains c
    · rw [if_pos hc] at hl
      rcases List.mem_cons.mp hl with h | h
      · subst h; simp
      · exact ih h
    · rw [if_neg hc] at hl
      cases hsp : splitChars seps rest with
      | nil => exact absurd hsp (splitChars_ne_nil seps rest)
      | cons l0 ls =>
        rw [hsp] at hl
        rcases List.mem_cons.mp hl with h | h
        · subst h
          intro x hx
          rcases List.mem_cons.mp hx with h | h
          · subst h
            simpa using fun hmem => hc (by simpa using hmem)
          · exact ih (by rw [hsp]; exact List.mem_cons_self l0 ls) x h
        · exact ih (by rw [hsp]; exact List.mem_cons_of_mem l0 h)


theorem joinWith_cons (sep : Char) (c : Char) (h : List Char) (t : List (List Char)) :
    joinWith sep ((c :: h) :: t) = c :: joinWith sep (h :: t) := by
  cases t <;> rfl

theorem joinWith_splitChars (sep : Char) (cs : List Char) :
    joinWith sep (splitChars [sep] cs) = cs := by
  induction cs with
  | nil => rfl
  | cons c rest ih =>
    simp only [splitChars]
    by_cases hc : c = sep
    · rw [if_pos (by simp [hc])]
      cases hsp : splitChars [sep] rest with
      | nil => exact absurd hsp (splitChars_ne_nil [sep] rest)
      | cons l0 ls =>
        have hj : joinWith sep ([] :: l0 :: ls) = sep :: joinWith sep (l0 :: ls) := rfl
        rw [hsp] at ih
        rw [hj, ih, hc]
    · rw [if_neg (by simp [hc])]
      cases hsp : splitChars [sep] rest with
      | nil => exact absurd hsp (splitChars_ne_nil [sep] rest)
      | cons l0 ls =>
        rw [hsp] at ih
        show joinWith sep ((c :: l0) :: ls) = c :: rest
        rw [joinWith_cons, ih]

theorem splitChars_joinWith {sep : Char} {lines : List (List Char)}
    (hne : lines ≠ []) (hfree : ∀ l ∈ lines, sep ∉ l) :
    splitChars [sep] (joinWith sep lines) = lines := by
  induction lines with
  | nil => exact absurd rfl hne
  | cons l rest ih =>
    cases rest with
    | nil =>
      have hj : joinWith sep [l] = l := rfl
      rw [hj]
      refine splitChars_sepFree (fun c hc => ?_)
      simp only [List.mem_singleton]
      intro h
      exact hfree l (List.mem_cons_self l _) (h ▸ hc)
    | cons l2 t =>
      have hjoin : joinWith sep (l :: l2 :: t) = l ++ sep :: joinWith sep (l2 :: t) := rfl
      rw [hjoin,
        splitChars_append_sep
          (fun a ha => by
            simp only [List.mem_singleton]
            intro h
            exact hfree l (List.mem_cons_self l _) (h ▸ ha))
          (by simp),
        ih (by simp) (fun x hx => hfree x (List.mem_cons_of_mem l hx))]

theorem head?_dropWhile_not {p : Char → Bool} {l : List Char} {h : Char}
    (hh : (l.dropWhile p).head? = some h) : p h = false := by
  induction l with
  | nil => simp [List.dropWhile] at hh
  | cons a rest ih =>
    by_cases ha : p a
    · rw [List.dropWhile_cons_of_pos ha] at hh
      exact ih hh
    · rw [List.dropWhile_cons_of_neg ha] at hh
      simp only [List.head?_cons, Option.some.injEq] at hh
      rw [← hh]
      exact Bool.eq_false_iff.mpr ha

theorem dropWhile_eq_self_of_head {p : Char → Bool} {l : List Char}
    (hh : ∀ h, l.head? = some h → p h = false) : l.dropWhile p = l := by
  cases l with
  | nil => rfl
  | cons a rest =>
    exact List.dropWhile_cons_of_neg (by simp [hh a rfl])

theorem mem_dropWhile_of_not {p : Char → Bool} {l : List Char} {x : Char}
    (hx : x ∈ l) (hpx : p x = false) : x ∈ l.dropWhile p := by
  induction l with
  | nil => simp at hx
  | cons a rest ih =>
    by_cases ha : p a
    · rw [List.dropWhile_cons_of_pos ha]
      rcases List.mem_cons.mp hx with h | h
      · subst h; rw [ha] at hpx; simp at hpx
      · exact ih h
    · rw [List.dropWhile_cons_of_neg ha]
      exact hx

theorem getLast?_dropWhile_of_ne_nil {p : Char → Bool} {l : List Char}
    (hne : l.dropWhile p ≠ []) : (l.dropWhile p).getLast? = l.getLast? := by
  obtain ⟨pre, hpre⟩ := List.dropWhile_suffix (l := l) (p := p)
  conv_rhs => rw [← hpre]
  exact (List.getLast?_append_of_ne_nil pre hne).symm

theorem mem_of_mem_trimChars {cs : List Char} {x : Char} (hx : x ∈ trimChars cs) :
    x ∈ cs := by
  unfold trimChars at hx
  rw [List.mem_reverse] at hx
  have h1 := (List.dropWhile_sublist (l := (cs.dropWhile wsChar).reverse) (p := wsChar)).mem hx
  rw [List.mem_reverse] at h1
  exact (List.dropWhile_sublist (l := cs) (p := wsChar)).mem h1

theorem mem_trimChars_of_not_ws {cs : List Char} {x : Char}
    (hx : x ∈ cs) (hws : wsChar x = false) : x ∈ trimChars cs := by
  unfold trimChars
  rw [List.mem_reverse]
  refine mem_dropWhile_of_not ?_ hws
  rw [List.mem_reverse]
  exact mem_dropWhile_of_not hx hws

theorem trimChars_ne_nil_of_mem {cs : List Char} {x : Char}
    (hx : x ∈ cs) (hws : wsChar x = false) : trimChars cs ≠ [] :=
  List.ne_nil_of_mem (mem_trimChars_of_not_ws hx hws)

theorem head?_trimChars_not_ws {cs : List Char} {h : Char}
    (hh : (trimChars cs).head? = some h) : wsChar h = false := by
  unfold trimChars at hh
  rw [List.head?_reverse] at hh
  have hne : (cs.dropWhile wsChar).reverse.dropWhile wsChar ≠ [] := by
    intro heq; rw [heq] at hh; simp at hh
  rw [getLast?_dropWhile_of_ne_nil hne, List.getLast?_reverse] at hh
  have hA : ∃ h0, (cs.dropWhile wsChar).head? = some h0 ∧ h0 = h := ⟨h, hh, rfl⟩
  obtain ⟨h0, hh0, rfl⟩ := hA
  exact head?_dropWhile_not hh0

theorem getLast?_trimChars_not_ws {cs : List Char} {h : Char}
    (hh : (trimChars cs).getLast? = some h) : wsChar h = false := by
  unfold trimChars at hh
  rw [List.getLast?_reverse] at hh
  exact head?_dropWhile_not hh

theorem trimChars_eq_self {cs : List Char}
    (hh : ∀ h, cs.head? = some h → wsChar h = false)
    (hl : ∀ h, cs.getLast? = some h → wsChar h = false) : trimChars cs = cs := by
  unfold trimChars
  rw [dropWhile_eq_self_of_head hh]
  rw [dropWhile_eq_self_of_head (fun h hhd => by
    rw [List.head?_reverse] at hhd
    exact hl h hhd)]
  exact List.reverse_reverse cs

theorem trimChars_idem (cs : List Char) : trimChars (trimChars cs) = trimChars cs :=
  trimChars_eq_self (fun _ hh => head?_trimChars_not_ws hh)
    (fun _ hh => getLast?_trimChars_not_ws hh)

theorem head?_trimChars_cons {h : Char} {rest : List Char} (hws : wsChar h = false) :
    (trimChars (h :: rest)).head? = some h := by
  unfold trimChars
  rw [dropWhile_eq_self_of_head (l := h :: rest) (fun x hx => by
    simp only [List.head?_cons, Option.some.injEq] at hx
    rw [← hx]; exact hws)]
  rw [List.head?_reverse]
  rw [show (h :: rest).reverse = rest.reverse ++ [h] by simp]
  rw [List.dropWhile_append]
  by_cases he : (rest.reverse.dropWhile wsChar).isEmpty
  · rw [if_pos he, List.dropWhile_cons_of_neg (by simp [hws])]
    simp
  · rw [if_neg he]
    exact List.getLast?_append_of_ne_nil (rest.reverse.dropWhile wsChar) (by simp)

theorem trimChars_cons_ne_nil {h : Char} {rest : List Char} (hws : wsChar h = false) :
    trimChars (h :: rest) ≠ [] := by
  intro heq
  have hhd : (trimChars (h :: rest)).head? = some h := head?_trimChars_cons hws
  rw [heq] at hhd
  simp at hhd

theorem takeWhile_append_cons {p : Char → Bool} {k v : List Char} {x : Char}
    (hk : ∀ c ∈ k, p c = true) (hx : p x = false) :
    (k ++ x :: v).takeWhile p = k := by
  induction k with
  | nil => simp [List.takeWhile_cons, hx]
  | cons a rest ih =>
    rw [List.cons_append, List.takeWhile_cons, hk a (List.mem_cons_self a rest),
      ih (fun c hc => hk c (List.mem_cons_of_mem a hc))]
    simp

theorem dropWhile_append_cons {p : Char → Bool} {k v : List Char} {x : Char}
    (hk : ∀ c ∈ k, p c = true) (hx : p x = false) :
    (k ++ x :: v).dropWhile p = x :: v := by
  induction k with
  | nil => simp [List.dropWhile_cons, hx]
  | cons a rest ih =>
    rw [List.cons_append, List.dropWhile_cons_of_pos (hk a (List.mem_cons_self a rest))]
    exact ih (fun c hc => hk c (List.mem_cons_of_mem a hc))

/-! ### Lemmas about record insertion and lookup -/

theorem keys_insertKV {κ ν : Type} [DecidableEq κ] (m : List (κ × ν)) (k : κ) (v : ν) :
    (insertKV m k v).map Prod.fst =
      if k ∈ m.map Prod.fst then m.map Prod.fst else m.map Prod.fst ++ [k] := by
  unfold insertKV
  by_cases hk : k ∈ m.map Prod.fst
  · rw [if_pos hk, if_pos hk, List.map_map]
    refine List.map_congr_left (fun kv _ => ?_)
    by_cases h : kv.1 = k <;> simp [h]
  · rw [if_neg hk, if_neg hk]
    simp

theorem insertKV_of_not_mem {κ ν : Type} [DecidableEq κ] {m : List (κ × ν)} {k : κ}
    (v : ν) (hk : k ∉ m.map Prod.fst) : insertKV m k v = m ++ [(k, v)] := by
  unfold insertKV
  rw [if_neg hk]

theorem nodupKeys_insertKV {κ ν : Type} [DecidableEq κ] {m : List (κ × ν)} {k : κ}
    {v : ν} (hnd : (m.map Prod.fst).Nodup) : ((insertKV m k v).map Prod.fst).Nodup := by
  rw [keys_insertKV]
  by_cases hk : k ∈ m.map Prod.fst
  · rw [if_pos hk]; exact hnd
  · rw [if_neg hk]
    refine List.Nodup.append hnd (List.nodup_singleton k) ?_
    intro x hx hx2
    simp only [List.mem_singleton] at hx2
    subst hx2
    exact hk hx

theorem insertKV_forall {κ ν : Type} [DecidableEq κ] {m : List (κ × ν)} {k : κ} {v : ν}
    {P : κ × ν → Prop} (hm : ∀ kv ∈ m, P kv) (hkv : P (k, v)) :
    ∀ kv ∈ insertKV m k v, P kv := by
  unfold insertKV
  by_cases hk : k ∈ m.map Prod.fst
  · rw [if_pos hk]
    intro kv hkvmem
    obtain ⟨kv0, hkv0, hmap⟩ := List.mem_map.mp hkvmem
    by_cases h : kv0.1 = k
    · rw [if_pos h] at hmap
      rw [← hmap, h]
      exact hkv
    · rw [if_neg h] at hmap
      rw [← hmap]
      exact hm kv0 hkv0
  · rw [if_neg hk]
    intro kv hkvmem
    rcases List.mem_append.mp hkvmem with h | h
    · exact hm kv h
    · rw [List.mem_singleton.mp h]
      exact hkv

theorem spreadProps_append {κ ν : Type} [DecidableEq κ] {m ps : List (κ × ν)}
    (hnd : (ps.map Prod.fst).Nodup)
    (hdisj : ∀ k ∈ ps.map Prod.fst, k ∉ m.map Prod.fst) :
    spreadProps m ps = m ++ ps := by
  induction ps generalizing m with
  | nil => simp [spreadProps]
  | cons a rest ih =>
    have ha : a.1 ∉ m.map Prod.fst := hdisj a.1 (by simp)
    have step : spreadProps m (a :: rest) = spreadProps (m ++ [a]) rest := by
      simp only [spreadProps, List.foldl_cons]
      rw [insertKV_of_not_mem a.2 ha]
    rw [step]
    rw [List.map_cons] at hnd
    have hnd' := List.Nodup.of_cons hnd
    have hanotin : a.1 ∉ rest.map Prod.fst := by
      intro hmem
      exact (List.nodup_cons.mp hnd).1 hmem
    rw [ih hnd' (fun k hk => by
      intro hmem
      rw [List.map_append] at hmem
      rcases List.mem_append.mp hmem with h | h
      · exact hdisj k (List.mem_cons_of_mem a.1 hk) h
      · simp only [List.map_cons, List.map_nil, List.mem_singleton] at h
        subst h
        exact hanotin hk)]
    simp

theorem spreadProps_nil {κ ν : Type} [DecidableEq κ] {ps : List (κ × ν)}
    (hnd : (ps.map Prod.fst).Nodup) : spreadProps ([] : List (κ × ν)) ps = ps := by
  rw [spreadProps_append hnd (by simp)]
  simp

theorem lookupKV_self {κ ν : Type} [DecidableEq κ] {m : List (κ × ν)} {d : ν}
    (hnd : (m.map Prod.fst).Nodup) : ∀ kv ∈ m, lookupKV m kv.1 d = kv.2 := by
  induction m with
  | nil => simp
  | cons a rest ih =>
    intro kv hkv
    rcases List.mem_cons.mp hkv with h | h
    · subst h
      unfold lookupKV
      rw [List.find?_cons_of_pos _ (by simp)]
    · have hne : a.1 ≠ kv.1 := by
        intro heq
        have : kv.1 ∈ rest.map Prod.fst := List.mem_map.mpr ⟨kv, h, rfl⟩
        rw [List.map_cons] at hnd
        exact (List.nodup_cons.mp hnd).1 (heq ▸ this)
      unfold lookupKV
      rw [List.find?_cons_of_neg _ (by simp [hne])]
      exact ih (List.Nodup.of_cons (by rw [List.map_cons] at hnd; exact hnd)) kv h

theorem map_lookupKV_self {κ ν : Type} [DecidableEq κ] {m : List (κ × ν)} {d : ν}
    (hnd : (m.map Prod.fst).Nodup) :
    (m.map Prod.fst).map (fun k => (k, lookupKV m k d)) = m := by
  rw [List.map_map]
  have : ∀ kv ∈ m, (fun k => (k, lookupKV m k d)) (Prod.fst kv) = id kv := by
    intro kv hkv
    simp only [Function.comp, id]
    rw [lookupKV_self (d := d) hnd kv hkv]
  calc m.map ((fun k => (k, lookupKV m k d)) ∘ Prod.fst) = m.map id :=
        List.map_congr_left this
    _ = m := List.map_id m

theorem length_filter_partition {α : Type} (p : α → Bool) (l : List α) :
    (l.filter p).length + (l.filter (fun a => !(p a))).length = l.length := by
  induction l with
  | nil => rfl
  | cons a rest ih =>
    by_cases h : p a <;> simp [List.filter_cons, h, ← ih] <;> omega

/-! ### Lemmas about the env parser -/

theorem mem_stripQuotesChars {v : List Char} {x : Char}
    (hx : x ∈ stripQuotesChars v) : x ∈ v := by
  unfold stripQuotesChars at hx
  split at hx
  · exact (List.drop_sublist 1 v).mem (List.mem_of_mem_dropLast hx)
  · exact hx

theorem parseEnvLine_reconstruct {k v : List Char}
    (hk : goodEnvKey k) (hv : trimChars v = v) (hq : stripQuotesChars v = v) :
    parseEnvLine (k ++ '=' :: v) = some (k, v) := by
  obtain ⟨hkne, hktrim, hkeq, hknl, hkhash⟩ := hk
  obtain ⟨kh, kt, rfl⟩ : ∃ kh kt, k = kh :: kt := by
    cases k with
    | nil => exact absurd rfl hkne
    | cons a t => exact ⟨a, t, rfl⟩
  have hkh_hd : (trimChars (kh :: kt)).head? = some kh := by
    rw [hktrim]
    rfl
  have hkh_ws : wsChar kh = false := head?_trimChars_not_ws hkh_hd
  have hkh_hash : kh ≠ '#' := by
    intro h
    exact hkhash (by rw [h]; rfl)
  have htrim : trimChars ((kh :: kt) ++ '=' :: v) = (kh :: kt) ++ '=' :: v := by
    refine trimChars_eq_self (fun h hh => ?_) (fun h hh => ?_)
    · rw [show ((kh :: kt) ++ '=' :: v).head? = some kh from rfl] at hh
      simp only [Option.some.injEq] at hh
      rw [← hh]
      exact hkh_ws
    · rw [List.getLast?_append_of_ne_nil (kh :: kt) (by simp)] at hh
      cases v with
      | nil =>
        simp only [List.getLast?_singleton, Option.some.injEq] at hh
        rw [← hh]
        decide
      | cons vh vt =>
        rw [List.getLast?_cons_cons] at hh
        have hh2 : (trimChars (vh :: vt)).getLast? = some h := by
          rw [hv]
          exact hh
        exact getLast?_trimChars_not_ws hh2
  have htake : ((kh :: kt) ++ '=' :: v).takeWhile (fun c => !(c = '=')) = kh :: kt :=
    takeWhile_append_cons
      (fun c hc => by
        have hcne : c ≠ '=' := fun h => hkeq (h ▸ hc)
        simp [hcne])
      (by simp)
  have hdrop : ((kh :: kt) ++ '=' :: v).dropWhile (fun c => !(c = '=')) = '=' :: v :=
    dropWhile_append_cons
      (fun c hc => by
        have hcne : c ≠ '=' := fun h => hkeq (h ▸ hc)
        simp [hcne])
      (by simp)
  unfold parseEnvLine
  rw [htrim, htake, hdrop]
  rw [if_neg (by simp)]
  rw [if_neg (by simp [hkh_hash])]
  rw [if_neg (by simp)]
  rw [if_neg (by simp)]
  rw [show ('=' :: v).drop 1 = v from rfl, hktrim, hv, hq]

theorem parseEnvLine_good {l key val : List Char} (hnl : '\n' ∉ l)
    (h : parseEnvLine l = some (key, val)) : goodEnvKey key ∧ '\n' ∉ val := by
  unfold parseEnvLine at h
  by_cases h1 : (trimChars l).isEmpty
  · rw [if_pos h1] at h; simp at h
  rw [if_neg h1] at h
  by_cases h2 : (trimChars l).head? = some '#'
  · rw [if_pos h2] at h; simp at h
  rw [if_neg h2] at h
  by_cases h3 : ((trimChars l).dropWhile (fun c => !(c = '='))).isEmpty
  · rw [if_pos h3] at h; simp at h
  rw [if_neg h3] at h
  by_cases h4 : ((trimChars l).takeWhile (fun c => !(c = '='))).isEmpty
  · rw [if_pos h4] at h; simp at h
  rw [if_neg h4] at h
  simp only [Option.some.injEq, Prod.mk.injEq] at h
  obtain ⟨hkey, hval⟩ := h
  obtain ⟨th, tt, htl⟩ : ∃ th tt, trimChars l = th :: tt := by
    cases hc : trimChars l with
    | nil => rw [hc] at h1; simp at h1
    | cons a t => exact ⟨a, t, rfl⟩
  have hth_hd : (trimChars l).head? = some th := by
    rw [htl]
    rfl
  have hth_ws : wsChar th = false := head?_trimChars_not_ws hth_hd
  have hth_hash : th ≠ '#' := fun hcontr => h2 (by rw [htl, hcontr]; rfl)
  have hth_ne : th ≠ '=' := by
    intro hcontr
    apply h4
    rw [htl, hcontr]
    simp [List.takeWhile_cons]
  have hkey_raw : (trimChars l).takeWhile (fun c => !(c = '=')) =
      th :: tt.takeWhile (fun c => !(c = '=')) := by
    rw [htl, List.takeWhile_cons, if_pos (by simp [hth_ne])]
  subst hkey hval
  refine ⟨⟨?_, ?_, ?_, ?_, ?_⟩, ?_⟩
  · rw [hkey_raw]
    exact trimChars_cons_ne_nil hth_ws
  · exact trimChars_idem _
  · intro hmem
    have hb := List.mem_takeWhile_imp (mem_of_mem_trimChars hmem)
    simp at hb
  · intro hmem
    have h5 := mem_of_mem_trimChars hmem
    have h6 := (List.takeWhile_prefix (l := trimChars l)
      (p := fun c => !(c = '='))).sublist.mem h5
    exact hnl (mem_of_mem_trimChars h6)
  · rw [hkey_raw, head?_trimChars_cons hth_ws]
    simp [hth_hash]
  · intro hmem
    have h5 := mem_of_mem_trimChars (mem_stripQuotesChars hmem)
    have h6 := (List.drop_sublist 1 _).mem h5
    have h7 := (List.dropWhile_sublist (l := trimChars l)
      (p := fun c => !(c = '='))).mem h6
    exact hnl (mem_of_mem_trimChars h7)

theorem foldl_envStep_good {lines : List (List Char)} {acc : List (List Char × List Char)}
    (hacc1 : ∀ kv ∈ acc, goodEnvKey kv.1 ∧ '\n' ∉ kv.2)
    (hacc2 : (acc.map Prod.fst).Nodup)
    (hl : ∀ l ∈ lines, '\n' ∉ l) :
    (∀ kv ∈ lines.foldl envStep acc, goodEnvKey kv.1 ∧ '\n' ∉ kv.2)
    ∧ ((lines.foldl envStep acc).map Prod.fst).Nodup := by
  induction lines generalizing acc with
  | nil => exact ⟨hacc1, hacc2⟩
  | cons l rest ih =>
    rw [List.foldl_cons]
    refine ih ?_ ?_ (fun x hx => hl x (List.mem_cons_of_mem l hx))
    · unfold envStep
      cases hp : parseEnvLine l with
      | none => exact hacc1
      | some kv0 =>
        exact insertKV_forall hacc1
          (parseEnvLine_good (hl l (List.mem_cons_self l rest)) (by rw [hp]))
    · unfold envStep
      cases hp : parseEnvLine l with
      | none => exact hacc2
      | some kv0 => exact nodupKeys_insertKV hacc2

theorem parseEnvList_good (cs : List Char) :
    (∀ kv ∈ parseEnvList cs, goodEnvKey kv.1 ∧ '\n' ∉ kv.2)
    ∧ ((parseEnvList cs).map Prod.fst).Nodup := by
  unfold parseEnvList
  refine foldl_envStep_good (by simp) (by simp) ?_
  intro l hl hin
  exact mem_splitChars_sepFree hl '\n' hin (List.mem_singleton.mpr rfl)

theorem foldl_envStep_insert {m : List (List Char × List Char)}
    (hm : ∀ kv ∈ m, parseEnvLine (kv.1 ++ '=' :: kv.2) = some (kv.1, kv.2)) :
    ∀ acc, (m.map (fun kv => kv.1 ++ '=' :: kv.2)).foldl envStep acc
      = m.foldl (fun a kv => insertKV a kv.1 kv.2) acc := by
  induction m with
  | nil => intro acc; rfl
  | cons a rest ih =>
    intro acc
    rw [List.map_cons, List.foldl_cons, List.foldl_cons]
    have hstep : envStep acc (a.1 ++ '=' :: a.2) = insertKV acc a.1 a.2 := by
      unfold envStep
      rw [hm a (List.mem_cons_self a rest)]
    rw [hstep]
    exact ih (fun kv hkv => hm kv (List.mem_cons_of_mem a hkv)) _

theorem parseEnvList_roundtrip {m : List (List Char × List Char)}
    (hgood : ∀ kv ∈ m, goodEnvKey kv.1 ∧ '\n' ∉ kv.2)
    (hnd : (m.map Prod.fst).Nodup)
    (hstable : ∀ kv ∈ m, trimChars kv.2 = kv.2 ∧ stripQuotesChars kv.2 = kv.2) :
    parseEnvList (joinWith '\n' (m.map (fun kv => kv.1 ++ '=' :: kv.2))) = m := by
  cases m with
  | nil => rfl
  | cons a rest =>
    have hlines_free : ∀ l ∈ (a :: rest).map (fun kv => kv.1 ++ '=' :: kv.2),
        '\n' ∉ l := by
      intro l hl hmem
      obtain ⟨kv, hkv, rfl⟩ := List.mem_map.mp hl
      rcases List.mem_append.mp hmem with h | h
      · exact (hgood kv hkv).1.2.2.2.1 h
      · rcases List.mem_cons.mp h with h | h
        · exact absurd h (by decide)
        · exact (hgood kv hkv).2 h
    unfold parseEnvList
    rw [splitChars_joinWith (by simp) hlines_free]
    rw [foldl_envStep_insert (fun kv hkv =>
      parseEnvLine_reconstruct (hgood kv hkv).1 (hstable kv hkv).1 (hstable kv hkv).2)]
    exact spreadProps_nil hnd

/-- Claim C6 (amended): for all dotenv text whose parsed values are trimmed
and not themselves wrapped in a matching quote pair, re-serializing the
parsed mapping into KEY=VALUE lines and parsing again yields the same
mapping. -/
theorem claimC6_roundtrip_stable (text : String)
    (hstable : ∀ kv ∈ parseEnvFile text,
      strTrim kv.2 = kv.2 ∧ stripQuotesS kv.2 = kv.2) :
    parseEnvFile (serializeEnv (parseEnvFile text)) = parseEnvFile text := by
  have hstable' : ∀ kv ∈ parseEnvList text.data,
      trimChars kv.2 = kv.2 ∧ stripQuotesChars kv.2 = kv.2 := by
    intro kv hkv
    have hmem : (String.mk kv.1, String.mk kv.2) ∈ parseEnvFile text :=
      List.mem_map.mpr ⟨kv, hkv, rfl⟩
    obtain ⟨h1, h2⟩ := hstable _ hmem
    exact ⟨congrArg String.data h1, congrArg String.data h2⟩
  have hdata : (serializeEnv (parseEnvFile text)).data
      = joinWith '\n' ((parseEnvList text.data).map (fun kv => kv.1 ++ '=' :: kv.2)) := by
    unfold serializeEnv parseEnvFile
    rw [List.map_map]
    rfl
  show (parseEnvList (serializeEnv (parseEnvFile text)).data).map
      (fun kv => (String.mk kv.1, String.mk kv.2)) = parseEnvFile text
  rw [hdata,
    parseEnvList_roundtrip (parseEnvList_good text.data).1
      (parseEnvList_good text.data).2 hstable']
  rfl

/-- Witness for C6 (amended): a concrete two-line file with plain values
round-trips. -/
theorem claimC6_roundtrip_stable_witness :
    (∀ kv ∈ parseEnvFile "A=1\nB=hello world",
      strTrim kv.2 = kv.2 ∧ stripQuotesS kv.2 = kv.2)
    ∧ parseEnvFile (serializeEnv (parseEnvFile "A=1\nB=hello world"))
      = parseEnvFile "A=1\nB=hello world" :=
  ⟨by decide, claimC6_roundtrip_stable "A=1\nB=hello world" (by decide)⟩

/-- Counterexample to C6 as stated: for the file `A="'B'"` the quote-stripped
value `'B'` is re-wrapped by its own quotes on the second parse, so the
round-tripped mapping maps A to `B`, not to `'B'`. -/
theorem claimC6_counterexample :
    parseEnvFile (serializeEnv (parseEnvFile "A=\"\x27B\x27\""))
      ≠ parseEnvFile "A=\"\x27B\x27\"" := by decide

/-! ### String data lemmas -/

theorem strData_append (a b : String) : (a ++ b).data = a.data ++ b.data := by
  cases a
  cases b
  rfl

theorem str_ne_empty_of_data {s : String} (h : s.data ≠ []) : s ≠ "" := by
  intro hcontr
  rw [hcontr] at h
  exact h rfl

/-! ### Quote stripping (claim C8) -/

theorem stripQuotesChars_wrap {q : Char} (hq : q = '"' ∨ q = squote)
    (cs : List Char) : stripQuotesChars (q :: cs ++ [q]) = cs := by
  have hlast : (q :: cs ++ [q]).getLast? = some q := by
    rw [show q :: cs ++ [q] = (q :: cs) ++ [q] from rfl,
      List.getLast?_append_of_ne_nil (q :: cs) (by simp)]
    rfl
  unfold stripQuotesChars
  rw [if_pos ?_]
  · rw [show (q :: cs ++ [q]).drop 1 = cs ++ [q] from rfl]
    exact List.dropLast_concat
  · rcases hq with h | h
    · exact Or.inl ⟨by rw [h]; rfl, by rw [hlast, h]⟩
    · exact Or.inr ⟨by rw [h]; rfl, by rw [hlast, h]⟩

/-- Claim C8: when a trimmed value is wrapped in one matching pair of double
or of single quotes, exactly that outer pair is stripped and the inner text
is returned verbatim, with no escape interpretation; in particular
`KEY="hello world"` gives `hello world` and `KEY='it''s'` gives `it''s`. -/
theorem claimC8_quote_strip :
    (∀ s : String,
      stripQuotesS ("\"" ++ s ++ "\"") = s
      ∧ stripQuotesS ("\x27" ++ s ++ "\x27") = s)
    ∧ parseEnvFile "KEY=\"hello world\"" = [("KEY", "hello world")]
    ∧ parseEnvFile "KEY=\x27it\x27\x27s\x27" = [("KEY", "it\x27\x27s")] := by
  refine ⟨fun s => ⟨?_, ?_⟩, by decide, by decide⟩
  · have hdata : ("\"" ++ s ++ "\"").data = '"' :: s.data ++ ['"'] := by
      rw [strData_append, strData_append, List.append_assoc]
      rfl
    show String.mk (stripQuotesChars ("\"" ++ s ++ "\"").data) = s
    rw [hdata, stripQuotesChars_wrap (Or.inl rfl)]
  · have hdata : ("\x27" ++ s ++ "\x27").data = squote :: s.data ++ [squote] := by
      rw [strData_append, strData_append, List.append_assoc]
      rfl
    show String.mk (stripQuotesChars ("\x27" ++ s ++ "\x27").data) = s
    rw [hdata, stripQuotesChars_wrap (Or.inr rfl)]

/-! ### Inline parsing (claim C9) -/

theorem parseVariables_inline_only {v : String} (rf : String → String)
    (hv : v ≠ "") : parseVariables "" "" v rf = Except.ok (applyInline [] v) := by
  unfold parseVariables
  simp [hv]

/-- Claim C9: the inline source is split on newline or comma, blank fragments
are skipped, and each remaining fragment is split at the first `=` only, key
and value both trimmed, so the value may itself contain `=`; in particular
`A=1,B=2=3` parses to A ↦ 1, B ↦ 2=3 and `KEY1=value1\nKEY2=value2` parses
to the two pairs. -/
theorem claimC9_inline :
    (∀ (a b : String) (rf : String → String),
      (∀ c ∈ a.data, c ∉ ['=', ',', '\n']) →
      (∀ c ∈ b.data, c ∉ [',', '\n']) →
      trimChars a.data ≠ [] →
      parseVariables "" "" (a ++ "=" ++ b) rf
        = Except.ok [(strTrim a, Json.str (strTrim b))])
    ∧ parseVariables "" "" "A=1,B=2=3" noReadFile
      = Except.ok [("A", Json.str "1"), ("B", Json.str "2=3")]
    ∧ parseVariables "" "" "KEY1=value1\nKEY2=value2" noReadFile
      = Except.ok [("KEY1", Json.str "value1"), ("KEY2", Json.str "value2")] := by
  refine ⟨fun a b rf ha hb hatrim => ?_, by rfl, by rfl⟩
  have hsdata : (a ++ "=" ++ b).data = a.data ++ '=' :: b.data := by
    rw [strData_append, strData_append, List.append_assoc]
    rfl
  have hne : (a ++ "=" ++ b) ≠ "" := by
    refine str_ne_empty_of_data ?_
    rw [hsdata]
    simp
  rw [parseVariables_inline_only rf hne]
  unfold applyInline
  rw [hsdata]
  have hfree : ∀ c ∈ a.data ++ '=' :: b.data, c ∉ ['\n', ','] := by
    intro c hc
    rcases List.mem_append.mp hc with h | h
    · intro hmem
      rcases List.mem_cons.mp hmem with h2 | h2
      · exact ha c h (by rw [h2]; simp)
      · exact ha c h (by
          simp only [List.mem_singleton] at h2
          rw [h2]; simp)
    · rcases List.mem_cons.mp h with h2 | h2
      · rw [h2]; decide
      · intro hmem
        rcases List.mem_cons.mp hmem with h3 | h3
        · exact hb c h2 (by rw [h3]; simp)
        · exact hb c h2 (by
            simp only [List.mem_singleton] at h3
            rw [h3]; simp)
  rw [splitChars_sepFree hfree]
  have hkeep : (!(trimChars (a.data ++ '=' :: b.data)).isEmpty) = true := by
    have hmem : '=' ∈ trimChars (a.data ++ '=' :: b.data) :=
      mem_trimChars_of_not_ws (by simp) (by decide)
    simp [List.isEmpty_iff, List.ne_nil_of_mem hmem]
  rw [show List.filter (fun p => !(trimChars p).isEmpty) [a.data ++ '=' :: b.data]
      = [a.data ++ '=' :: b.data] from by
    rw [List.filter_cons, if_pos hkeep]
    rfl]
  rw [List.foldl_cons, List.foldl_nil]
  rw [splitChars_append_sep (fun c hc => by
      intro hmem
      simp only [List.mem_singleton] at hmem
      exact ha c hc (by rw [hmem]; simp)) (by simp)]
  have hane : a.data ≠ [] := by
    intro hcontr
    rw [hcontr] at hatrim
    exact hatrim rfl
  show Except.ok
      (if (!a.data.isEmpty && !(splitChars ['='] b.data).isEmpty) = true then
        insertKV [] (String.mk (trimChars a.data))
          (Json.str (String.mk (trimChars (joinWith '=' (splitChars ['='] b.data)))))
      else []) = Except.ok [(strTrim a, Json.str (strTrim b))]
  rw [if_pos (by simp [List.isEmpty_iff, hane, splitChars_ne_nil])]
  rw [joinWith_splitChars]
  rw [insertKV_of_not_mem _ (by simp)]
  rfl

/-! ### Loop accounting lemmas -/

theorem foldl_mergeStep (r : Remote) (vars : VarMap) (keys : List String) :
    ∀ (u f : Nat) (cs : List RemoteCall),
      keys.foldl (mergeStep r vars) (u, f, cs)
        = (u + (keys.filter
              (fun k => exOk (r.updateR k (lookupKV vars k Json.null)))).length,
           f + (keys.filter
              (fun k => !(exOk (r.updateR k (lookupKV vars k Json.null))))).length,
           cs ++ keys.map (fun k => RemoteCall.update k (lookupKV vars k Json.null))) := by
  induction keys with
  | nil =>
    intro u f cs
    simp
  | cons k ks ih =>
    intro u f cs
    rw [List.foldl_cons]
    cases h : r.updateR k (lookupKV vars k Json.null) with
    | ok x =>
      have hstep : mergeStep r vars (u, f, cs) k
          = (u + 1, f, cs ++ [RemoteCall.update k (lookupKV vars k Json.null)]) := by
        unfold mergeStep
        rw [h]
      rw [hstep, ih]
      simp [List.filter_cons, exOk, h]
      omega
    | error e =>
      have hstep : mergeStep r vars (u, f, cs) k
          = (u, f + 1, cs ++ [RemoteCall.update k (lookupKV vars k Json.null)]) := by
        unfold mergeStep
        rw [h]
      rw [hstep, ih]
      simp [List.filter_cons, exOk, h]
      omega

theorem mergeLoop_spec (r : Remote) (vars : VarMap) :
    mergeLoop r vars (vars.map Prod.fst)
      = (updateOkCount r vars, updateErrCount r vars,
         (vars.map Prod.fst).map
           (fun k => RemoteCall.update k (lookupKV vars k Json.null))) := by
  unfold mergeLoop updateOkCount updateErrCount
  rw [foldl_mergeStep]
  simp

theorem foldl_deleteStep (r : Remote) (keys : List String) :
    ∀ (d f : Nat) (cs : List RemoteCall),
      keys.foldl (deleteStep r) (d, f, cs)
        = (d + (keys.filter (deleteOkB r)).length,
           f + (keys.filter (fun k => !(deleteOkB r k))).length,
           cs ++ keys.map RemoteCall.delete) := by
  induction keys with
  | nil =>
    intro d f cs
    simp
  | cons k ks ih =>
    intro d f cs
    rw [List.foldl_cons]
    cases h : r.deleteR k with
    | ok x =>
      have hstep : deleteStep r (d, f, cs) k
          = (d + 1, f, cs ++ [RemoteCall.delete k]) := by
        unfold deleteStep
        rw [h]
      have hok : deleteOkB r k = true := by
        unfold deleteOkB
        rw [h]
      rw [hstep, ih]
      simp [List.filter_cons, hok]
      omega
    | error e =>
      by_cases h404 : e.statusCode = some 404
      · have hstep : deleteStep r (d, f, cs) k
            = (d + 1, f, cs ++ [RemoteCall.delete k]) := by
          unfold deleteStep
          rw [h]
          show (if e.statusCode = some 404 then (d + 1, f, cs ++ [RemoteCall.delete k])
            else (d, f + 1, cs ++ [RemoteCall.delete k])) = (d + 1, f, cs ++ [RemoteCall.delete k])
          rw [if_pos h404]
        have hok : deleteOkB r k = true := by
          unfold deleteOkB
          rw [h]
          simpa using h404
        rw [hstep, ih]
        simp [List.filter_cons, hok]
        omega
      · have hstep : deleteStep r (d, f, cs) k
            = (d, f + 1, cs ++ [RemoteCall.delete k]) := by
          unfold deleteStep
          rw [h]
          show (if e.statusCode = some 404 then (d + 1, f, cs ++ [RemoteCall.delete k])
            else (d, f + 1, cs ++ [RemoteCall.delete k])) = (d, f + 1, cs ++ [RemoteCall.delete k])
          rw [if_neg h404]
        have hok : deleteOkB r k = false := by
          unfold deleteOkB
          rw [h]
          simpa using h404
        rw [hstep, ih]
        simp [List.filter_cons, hok]
        omega

theorem deleteLoop_spec (r : Remote) (keys : List String) :
    deleteLoop r keys
      = (deletedCount r keys, deleteFailCount r keys, keys.map RemoteCall.delete) := by
  unfold deleteLoop deletedCount deleteFailCount
  rw [foldl_deleteStep]
  simp

/-! ### Key-uniqueness of the merged mapping -/

theorem nodupKeys_spreadProps {κ ν : Type} [DecidableEq κ] {m : List (κ × ν)}
    (ps : List (κ × ν)) (h : (m.map Prod.fst).Nodup) :
    ((spreadProps m ps).map Prod.fst).Nodup := by
  induction ps generalizing m with
  | nil => exact h
  | cons a rest ih =>
    have hstep : spreadProps m (a :: rest) = spreadProps (insertKV m a.1 a.2) rest := by
      simp [spreadProps]
    rw [hstep]
    exact ih (nodupKeys_insertKV h)

theorem nodupKeys_applyInline {m : VarMap} (s : String)
    (h : (m.map Prod.fst).Nodup) : ((applyInline m s).map Prod.fst).Nodup := by
  unfold applyInline
  generalize ((splitChars ['\n', ','] s.data).filter
    (fun p => !(trimChars p).isEmpty)) = pairs
  induction pairs generalizing m with
  | nil => exact h
  | cons p rest ih =>
    rw [List.foldl_cons]
    refine ih ?_
    cases hs : splitChars ['='] p with
    | nil => exact h
    | cons key vps =>
      by_cases hg : (!key.isEmpty && !vps.isEmpty) = true
      · simp only [hg, if_true]
        exact nodupKeys_insertKV h
      · simp only [hg, if_false]
        exact h

theorem parseVariables_nodupKeys {ef jv vi : String} {rf : String → String}
    {vars : VarMap} (h : parseVariables ef jv vi rf = Except.ok vars) :
    (vars.map Prod.fst).Nodup := by
  unfold parseVariables at h
  dsimp only [] at h
  have h1 : (((if ef = "" then ([] : VarMap)
      else spreadProps [] (envProps (rf ef)))).map Prod.fst).Nodup := by
    by_cases hef : ef = ""
    · simp [hef]
    · rw [if_neg hef]
      exact nodupKeys_spreadProps _ (by simp)
  by_cases hjv : jv = ""
  · rw [if_pos hjv] at h
    simp only [Except.ok.injEq] at h
    rw [← h]
    by_cases hvi : vi = ""
    · rw [if_pos hvi]
      exact h1
    · rw [if_neg hvi]
      exact nodupKeys_applyInline vi h1
  · rw [if_neg hjv] at h
    cases hj : jsonParse jv with
    | none =>
      rw [hj] at h
      simp at h
    | some v =>
      rw [hj] at h
      simp only [Except.ok.injEq] at h
      rw [← h]
      by_cases hvi : vi = ""
      · rw [if_pos hvi]
        exact nodupKeys_spreadProps _ h1
      · rw [if_neg hvi]
        exact nodupKeys_applyInline vi (nodupKeys_spreadProps _ h1)

/-! ### Claim C1: merge order -/

/-- Claim C1: merging of the variable sources is a left fold starting from
the empty mapping, spreading in the parsed File source, then the parsed Json
source, then assigning the Inline pairs, each step overwriting overlapping
keys; concretely, File A=1,B=2 with Json B:3,C:4 and Inline C=5,D=6 merges to
exactly A:1, B:3, C:5, D:6. -/
theorem claimC1_merge_fold :
    (∀ (ef jv vi : String) (rf : String → String) (j : Json),
      ef ≠ "" → jv ≠ "" → vi ≠ "" → jsonParse jv = some j →
      parseVariables ef jv vi rf
        = Except.ok (applyInline
            (spreadProps (spreadProps [] (envProps (rf ef))) (jsSpread j)) vi))
    ∧ parseVariables "vars.env" "\x7b\"B\": \"3\", \"C\": \"4\"\x7d" "C=5,D=6"
        (fun _ => "A=1\nB=2")
      = Except.ok [("A", Json.str "1"), ("B", Json.str "3"),
          ("C", Json.str "5"), ("D", Json.str "6")] := by
  refine ⟨fun ef jv vi rf j hef hjv hvi hj => ?_, by rfl⟩
  unfold parseVariables
  simp [hef, hjv, hvi, hj]

/-- Witness for C1: the fold shape instantiated at the concrete three-source
input. -/
theorem claimC1_merge_fold_witness :
    ("vars.env" ≠ "" ∧ "\x7b\"B\": \"3\", \"C\": \"4\"\x7d" ≠ "" ∧ "C=5,D=6" ≠ ""
      ∧ jsonParse "\x7b\"B\": \"3\", \"C\": \"4\"\x7d"
        = some (Json.obj [("B", Json.str "3"), ("C", Json.str "4")]))
    ∧ parseVariables "vars.env" "\x7b\"B\": \"3\", \"C\": \"4\"\x7d" "C=5,D=6"
        (fun _ => "A=1\nB=2")
      = Except.ok (applyInline
          (spreadProps
            (spreadProps [] (envProps ((fun _ => "A=1\nB=2") "vars.env")))
            (jsSpread (Json.obj [("B", Json.str "3"), ("C", Json.str "4")])))
          "C=5,D=6") :=
  ⟨⟨by decide, by decide, by decide, by rfl⟩,
    claimC1_merge_fold.1 "vars.env" "\x7b\"B\": \"3\", \"C\": \"4\"\x7d" "C=5,D=6"
      (fun _ => "A=1\nB=2")
      (Json.obj [("B", Json.str "3"), ("C", Json.str "4")])
      (by decide) (by decide) (by decide) (by rfl)⟩

/-! ### Claim C2: JSON source errors -/

theorem parseVariables_json_error {j : String} (rf : String → String)
    (hj : j ≠ "") (hnone : jsonParse j = none) :
    parseVariables "" j "" rf = Except.error (ParseError.invalidJson j) := by
  unfold parseVariables
  simp [hj, hnone]

/-- Claim C2 (amended): with a JSON source supplied, the merger fails —
fatally, before any remote call — exactly when the string is not valid JSON;
a valid JSON value whose top level is not an object does NOT fail (it merely
contributes its spread-enumerable properties, none for a primitive), and
object values are not validated to be strings. -/
theorem claimC2_json_parse :
    (∀ (j : String) (rf : String → String), j ≠ "" →
      ((∃ e, parseVariables "" j "" rf = Except.error e) ↔ jsonParse j = none))
    ∧ (∀ (i : Inputs) (rf : String → String) (r : Remote),
        goodCreds i → i.operationRaw = "set" → i.envFile = "" → i.varsInput = "" →
        i.jsonVars ≠ "" → jsonParse i.jsonVars = none →
        (runAction i rf r).calls = [] ∧ (runAction i rf r).failedMsg ≠ none)
    ∧ parseVariables "" "\x7b\"a\": 1\x7d" "" noReadFile
      = Except.ok [("a", Json.num "1")] := by
  refine ⟨fun j rf hj => ?_, fun i rf r hc hop hef hvi hjv hnone => ?_, by rfl⟩
  · cases h : jsonParse j with
    | none =>
      rw [parseVariables_json_error rf hj h]
      simp
    | some v =>
      unfold parseVariables
      simp [hj, h]
  · obtain ⟨h1, h2, h3, h4⟩ := hc
    have hsrc : ¬(i.envFile = "" ∧ i.jsonVars = "" ∧ i.varsInput = "") := by
      intro hcontr
      exact hjv hcontr.2.1
    have hpv : parseVariables i.envFile i.jsonVars i.varsInput rf
        = Except.error (ParseError.invalidJson i.jsonVars) := by
      rw [hef, hvi]
      exact parseVariables_json_error rf hjv hnone
    unfold runAction runOp runSet
    simp [h1, h2, h3, h4, hop, hsrc, hpv]

/-- Witness for C2 (amended): concrete invalid and non-object JSON inputs. -/
theorem claimC2_json_parse_witness :
    ("not json" ≠ ""
      ∧ ((∃ e, parseVariables "" "not json" "" noReadFile = Except.error e)
        ↔ jsonParse "not json" = none))
    ∧ (goodCreds setBadJsonInputs ∧ setBadJsonInputs.operationRaw = "set"
      ∧ setBadJsonInputs.envFile = "" ∧ setBadJsonInputs.varsInput = ""
      ∧ setBadJsonInputs.jsonVars ≠ ""
      ∧ jsonParse setBadJsonInputs.jsonVars = none
      ∧ (runAction setBadJsonInputs noReadFile okRemote).calls = []
      ∧ (runAction setBadJsonInputs noReadFile okRemote).failedMsg ≠ none) :=
  ⟨⟨by decide, claimC2_json_parse.1 "not json" noReadFile (by decide)⟩,
    by
      refine ⟨⟨by decide, by decide, by decide, by decide⟩, rfl, rfl, rfl,
        by decide, by rfl, ?_, ?_⟩
      · exact (claimC2_json_parse.2.1 setBadJsonInputs noReadFile okRemote
          ⟨by decide, by decide, by decide, by decide⟩ rfl rfl rfl (by decide) (by rfl)).1
      · exact (claimC2_json_parse.2.1 setBadJsonInputs noReadFile okRemote
          ⟨by decide, by decide, by decide, by decide⟩ rfl rfl rfl (by decide) (by rfl)).2⟩

/-- Counterexample to C2 as stated: `5` is valid JSON with a non-object top
level, yet the merger succeeds (with no contributed keys) instead of failing
with a parse error. -/
theorem claimC2_counterexample :
    parseVariables "" "5" "" noReadFile = Except.ok [] := rfl

/-! ### Claim C3: merge-mode set accounting -/

/-- Claim C3: in merge-mode set (replace unset) an update call is made for
every key of the merged mapping in order, continuing past individual
failures; after the loop both updated_count (successes) and failed_count
(failures) are emitted, they sum to the number of keys, and the run is
marked failed if and only if failed_count is positive. -/
theorem claimC3_merge_set (i : Inputs) (rf : String → String) (r : Remote)
    (vars : VarMap)
    (hc : goodCreds i) (hop : i.operationRaw = "set")
    (hrep : i.replaceRaw ≠ "true")
    (hsrc : ¬(i.envFile = "" ∧ i.jsonVars = "" ∧ i.varsInput = ""))
    (hp : parseVariables i.envFile i.jsonVars i.varsInput rf = Except.ok vars)
    (hne : vars ≠ []) :
    (runAction i rf r).calls
      = (vars.map Prod.fst).map
          (fun k => RemoteCall.update k (lookupKV vars k Json.null))
    ∧ (runAction i rf r).outputs
      = [("updated_count", OutputValue.num (updateOkCount r vars)),
         ("failed_count", OutputValue.num (updateErrCount r vars))]
    ∧ updateOkCount r vars + updateErrCount r vars = vars.length
    ∧ ((runAction i rf r).failedMsg ≠ none ↔ 0 < updateErrCount r vars) := by
  obtain ⟨h1, h2, h3, h4⟩ := hc
  have hkeys : (vars.map Prod.fst).isEmpty = false := by
    cases vars with
    | nil => exact absurd rfl hne
    | cons a t => rfl
  have hsum : updateOkCount r vars + updateErrCount r vars = vars.length := by
    unfold updateOkCount updateErrCount
    rw [length_filter_partition]
    exact List.length_map vars Prod.fst
  have hrun : runOp i rf r
      = ((vars.map Prod.fst).map
            (fun k => RemoteCall.update k (lookupKV vars k Json.null)),
         [("updated_count", OutputValue.num (updateOkCount r vars)),
          ("failed_count", OutputValue.num (updateErrCount r vars))],
         if 0 < updateErrCount r vars then
           some (RunError.usage
             ("Failed to set " ++ Nat.repr (updateErrCount r vars) ++ " variable(s)"))
         else none) := by
    unfold runOp runSet
    simp [h1, h2, h3, h4, hop, hrep, hsrc, hp, hkeys, mergeLoop_spec]
  refine ⟨?_, ?_, hsum, ?_⟩
  · show (runOp i rf r).1 = _
    rw [hrun]
  · show (runOp i rf r).2.1 = _
    rw [hrun]
  · show ((runOp i rf r).2.2.map renderError ≠ none) ↔ _
    rw [hrun]
    by_cases herr : 0 < updateErrCount r vars
    · simp [herr]
    · simp [herr]

/-- Witness for C3: three inline keys against a remote failing on B give
updated_count 2, failed_count 1 and a failed run. -/
theorem claimC3_merge_set_witness :
    (goodCreds setMergeInputs ∧ setMergeInputs.operationRaw = "set"
      ∧ setMergeInputs.replaceRaw ≠ "true"
      ∧ ¬(setMergeInputs.envFile = "" ∧ setMergeInputs.jsonVars = ""
          ∧ setMergeInputs.varsInput = "")
      ∧ parseVariables setMergeInputs.envFile setMergeInputs.jsonVars
          setMergeInputs.varsInput noReadFile = Except.ok setMergeVars
      ∧ setMergeVars ≠ [])
    ∧ updateOkCount mergeFailRemote setMergeVars = 2
    ∧ updateErrCount mergeFailRemote setMergeVars = 1
    ∧ (runAction setMergeInputs noReadFile mergeFailRemote).outputs
      = [("updated_count", OutputValue.num (updateOkCount mergeFailRemote setMergeVars)),
         ("failed_count", OutputValue.num (updateErrCount mergeFailRemote setMergeVars))]
    ∧ (runAction setMergeInputs noReadFile mergeFailRemote).failedMsg ≠ none :=
  ⟨⟨⟨by decide, by decide, by decide, by decide⟩, rfl, by decide,
      by decide, by rfl, by simp [setMergeVars]⟩,
    by rfl, by rfl,
    (claimC3_merge_set setMergeInputs noReadFile mergeFailRemote setMergeVars
      ⟨by decide, by decide, by decide, by decide⟩ rfl (by decide) (by decide)
      (by rfl) (by simp [setMergeVars])).2.1,
    (claimC3_merge_set setMergeInputs noReadFile mergeFailRemote setMergeVars
      ⟨by decide, by decide, by decide, by decide⟩ rfl (by decide) (by decide)
      (by rfl) (by simp [setMergeVars])).2.2.2.mpr (by decide)⟩

/-! ### Claim C4: delete accounting -/

/-- Claim C4: delete processes every parsed key independently, a successful
remote delete or a 404 both count toward deleted_count, any other error
counts toward failed_count while the loop continues, both counts are
emitted, and the run is never marked failed. -/
theorem claimC4_delete (i : Inputs) (rf : String → String) (r : Remote)
    (hc : goodCreds i) (hop : i.operationRaw = "delete")
    (hkin : i.keysInput ≠ "") (hne : parseKeys i.keysInput ≠ []) :
    (runAction i rf r).calls = (parseKeys i.keysInput).map RemoteCall.delete
    ∧ (runAction i rf r).outputs
      = [("deleted_count", OutputValue.num (deletedCount r (parseKeys i.keysInput))),
         ("failed_count", OutputValue.num (deleteFailCount r (parseKeys i.keysInput)))]
    ∧ deletedCount r (parseKeys i.keysInput)
        + deleteFailCount r (parseKeys i.keysInput)
      = (parseKeys i.keysInput).length
    ∧ (∀ k e, r.deleteR k = Except.error e → e.statusCode = some 404 →
        deleteOkB r k = true)
    ∧ (runAction i rf r).failedMsg = none := by
  obtain ⟨h1, h2, h3, h4⟩ := hc
  have hkeys : (parseKeys i.keysInput).isEmpty = false := by
    cases hpk : parseKeys i.keysInput with
    | nil => exact absurd hpk hne
    | cons a t => rfl
  have hsum : deletedCount r (parseKeys i.keysInput)
      + deleteFailCount r (parseKeys i.keysInput)
      = (parseKeys i.keysInput).length := by
    unfold deletedCount deleteFailCount
    exact length_filter_partition (deleteOkB r) (parseKeys i.keysInput)
  have hrun : runOp i rf r
      = ((parseKeys i.keysInput).map RemoteCall.delete,
         [("deleted_count", OutputValue.num (deletedCount r (parseKeys i.keysInput))),
          ("failed_count", OutputValue.num (deleteFailCount r (parseKeys i.keysInput)))],
         none) := by
    unfold runOp runDelete
    simp [h1, h2, h3, h4, hop, hkin, hkeys, deleteLoop_spec]
  refine ⟨?_, ?_, hsum, ?_, ?_⟩
  · show (runOp i rf r).1 = _
    rw [hrun]
  · show (runOp i rf r).2.1 = _
    rw [hrun]
  · intro k e hdel h404
    unfold deleteOkB
    rw [hdel]
    simpa using h404
  · show (runOp i rf r).2.2.map renderError = none
    rw [hrun]
    rfl

/-- Witness for C4: keys A,B,C against a remote failing with status 500 on B
give deleted_count 2, failed_count 1 and a successful run. -/
theorem claimC4_delete_witness :
    (goodCreds deleteInputs ∧ deleteInputs.operationRaw = "delete"
      ∧ deleteInputs.keysInput ≠ "" ∧ parseKeys deleteInputs.keysInput ≠ [])
    ∧ deletedCount deleteFailRemote (parseKeys deleteInputs.keysInput) = 2
    ∧ deleteFailCount deleteFailRemote (parseKeys deleteInputs.keysInput) = 1
    ∧ (runAction deleteInputs noReadFile deleteFailRemote).outputs
      = [("deleted_count",
          OutputValue.num (deletedCount deleteFailRemote (parseKeys deleteInputs.keysInput))),
         ("failed_count",
          OutputValue.num (deleteFailCount deleteFailRemote (parseKeys deleteInputs.keysInput)))]
    ∧ (runAction deleteInputs noReadFile deleteFailRemote).failedMsg = none :=
  ⟨⟨⟨by decide, by decide, by decide, by decide⟩, rfl, by decide, by decide⟩,
    by rfl, by rfl,
    (claimC4_delete deleteInputs noReadFile deleteFailRemote
      ⟨by decide, by decide, by decide, by decide⟩ rfl (by decide) (by decide)).2.1,
    (claimC4_delete deleteInputs noReadFile deleteFailRemote
      ⟨by decide, by decide, by decide, by decide⟩ rfl (by decide)
      (by decide)).2.2.2.2⟩

/-! ### Claim C5: replace-mode set -/

/-- Claim C5: replace-mode set makes exactly one bulkSet call carrying the
whole merged mapping as name/value entries; on success it outputs
updated_count = size of the mapping and failed_count = 0 with the run
succeeding, and on any bulkSet error it outputs updated_count = 0 and
failed_count = size of the mapping with the run marked failed. -/
theorem claimC5_replace_set (i : Inputs) (rf : String → String) (r : Remote)
    (vars : VarMap)
    (hc : goodCreds i) (hop : i.operationRaw = "set")
    (hrep : i.replaceRaw = "true")
    (hsrc : ¬(i.envFile = "" ∧ i.jsonVars = "" ∧ i.varsInput = ""))
    (hp : parseVariables i.envFile i.jsonVars i.varsInput rf = Except.ok vars)
    (hne : vars ≠ []) :
    (runAction i rf r).calls = [RemoteCall.bulkSet vars]
    ∧ (r.bulkR vars = Except.ok () →
        (runAction i rf r).outputs
          = [("updated_count", OutputValue.num vars.length),
             ("failed_count", OutputValue.num 0)]
        ∧ (runAction i rf r).failedMsg = none)
    ∧ (∀ e, r.bulkR vars = Except.error e →
        (runAction i rf r).outputs
          = [("updated_count", OutputValue.num 0),
             ("failed_count", OutputValue.num vars.length)]
        ∧ (runAction i rf r).failedMsg ≠ none) := by
  obtain ⟨h1, h2, h3, h4⟩ := hc
  have hkeys : (vars.map Prod.fst).isEmpty = false := by
    cases vars with
    | nil => exact absurd rfl hne
    | cons a t => rfl
  have hent : (vars.map Prod.fst).map (fun k => (k, lookupKV vars k Json.null))
      = vars := map_lookupKV_self (parseVariables_nodupKeys hp)
  refine ⟨?_, fun hok => ?_, fun e herr => ?_⟩
  · show (runOp i rf r).1 = _
    unfold runOp runSet
    cases hb : r.bulkR vars with
    | ok u =>
      simp [h1, h2, h3, h4, hop, hrep, hsrc, hp, hkeys, hent, hb]
    | error e =>
      simp [h1, h2, h3, h4, hop, hrep, hsrc, hp, hkeys, hent, hb]
  · constructor
    · show (runOp i rf r).2.1 = _
      unfold runOp runSet
      simp [h1, h2, h3, h4, hop, hrep, hsrc, hp, hkeys, hent, hok]
    · show (runOp i rf r).2.2.map renderError = none
      unfold runOp runSet
      simp [h1, h2, h3, h4, hop, hrep, hsrc, hp, hkeys, hent, hok]
  · constructor
    · show (runOp i rf r).2.1 = _
      unfold runOp runSet
      simp [h1, h2, h3, h4, hop, hrep, hsrc, hp, hkeys, hent, herr]
    · show (runOp i rf r).2.2.map renderError ≠ none
      unfold runOp runSet
      simp [h1, h2, h3, h4, hop, hrep, hsrc, hp, hkeys, hent, herr]

/-- Witness for C5: three inline keys in replace mode against a remote whose
bulkSet fails give one bulk call, updated_count 0, failed_count 3 and a
failed run. -/
theorem claimC5_replace_set_witness :
    (goodCreds setReplaceInputs ∧ setReplaceInputs.operationRaw = "set"
      ∧ setReplaceInputs.replaceRaw = "true"
      ∧ ¬(setReplaceInputs.envFile = "" ∧ setReplaceInputs.jsonVars = ""
          ∧ setReplaceInputs.varsInput = "")
      ∧ parseVariables setReplaceInputs.envFile setReplaceInputs.jsonVars
          setReplaceInputs.varsInput noReadFile = Except.ok setMergeVars
      ∧ setMergeVars ≠ []
      ∧ bulkFailRemote.bulkR setMergeVars
        = Except.error ⟨some 500, some "bulk failed", "bulk failed"⟩)
    ∧ (runAction setReplaceInputs noReadFile bulkFailRemote).calls
      = [RemoteCall.bulkSet setMergeVars]
    ∧ (runAction setReplaceInputs noReadFile bulkFailRemote).outputs
      = [("updated_count", OutputValue.num 0),
         ("failed_count", OutputValue.num setMergeVars.length)]
    ∧ (runAction setReplaceInputs noReadFile bulkFailRemote).failedMsg ≠ none :=
  ⟨⟨⟨by decide, by decide, by decide, by decide⟩, rfl, by decide,
      by decide, by rfl, by simp [setMergeVars], by rfl⟩,
    (claimC5_replace_set setReplaceInputs noReadFile bulkFailRemote setMergeVars
      ⟨by decide, by decide, by decide, by decide⟩ rfl (by decide) (by decide)
      (by rfl) (by simp [setMergeVars])).1,
    ((claimC5_replace_set setReplaceInputs noReadFile bulkFailRemote setMergeVars
      ⟨by decide, by decide, by decide, by decide⟩ rfl (by decide) (by decide)
      (by rfl) (by simp [setMergeVars])).2.2
        ⟨some 500, some "bulk failed", "bulk failed"⟩ (by rfl)).1,
    ((claimC5_replace_set setReplaceInputs noReadFile bulkFailRemote setMergeVars
      ⟨by decide, by decide, by decide, by decide⟩ rfl (by decide) (by decide)
      (by rfl) (by simp [setMergeVars])).2.2
        ⟨some 500, some "bulk failed", "bulk failed"⟩ (by rfl)).2⟩

/-! ### Claim C7: clear -/

/-- Claim C7: clear makes one bulkSet call with the empty mapping; on success
it outputs the sentinel string "all" as deleted_count and failed_count 0,
independently of the remote state; any bulkSet error leaves no outputs and
marks the run failed. -/
theorem claimC7_clear (i : Inputs) (rf : String → String) (r : Remote)
    (hc : goodCreds i) (hop : i.operationRaw = "clear") :
    (runAction i rf r).calls = [RemoteCall.bulkSet []]
    ∧ (r.bulkR [] = Except.ok () →
        (runAction i rf r).outputs
          = [("deleted_count", OutputValue.str "all"),
             ("failed_count", OutputValue.num 0)]
        ∧ (runAction i rf r).failedMsg = none)
    ∧ (∀ e, r.bulkR [] = Except.error e →
        (runAction i rf r).outputs = []
        ∧ (runAction i rf r).failedMsg ≠ none) := by
  obtain ⟨h1, h2, h3, h4⟩ := hc
  refine ⟨?_, fun hok => ?_, fun e herr => ?_⟩
  · show (runOp i rf r).1 = _
    unfold runOp runClear
    cases hb : r.bulkR [] with
    | ok u => simp [h1, h2, h3, h4, hop, hb]
    | error e => simp [h1, h2, h3, h4, hop, hb]
  · constructor
    · show (runOp i rf r).2.1 = _
      unfold runOp runClear
      simp [h1, h2, h3, h4, hop, hok]
    · show (runOp i rf r).2.2.map renderError = none
      unfold runOp runClear
      simp [h1, h2, h3, h4, hop, hok]
  · constructor
    · show (runOp i rf r).2.1 = _
      unfold runOp runClear
      simp [h1, h2, h3, h4, hop, herr]
    · show (runOp i rf r).2.2.map renderError ≠ none
      unfold runOp runClear
      simp [h1, h2, h3, h4, hop, herr]

/-- Witness for C7: a clear run against a remote that accepts the bulk call
reports deleted_count "all" and failed_count 0 and succeeds. -/
theorem claimC7_clear_witness :
    (goodCreds clearInputs ∧ clearInputs.operationRaw = "clear"
      ∧ okRemote.bulkR [] = Except.ok ())
    ∧ (runAction clearInputs noReadFile okRemote).calls = [RemoteCall.bulkSet []]
    ∧ (runAction clearInputs noReadFile okRemote).outputs
      = [("deleted_count", OutputValue.str "all"),
         ("failed_count", OutputValue.num 0)]
    ∧ (runAction clearInputs noReadFile okRemote).failedMsg = none :=
  ⟨⟨⟨by decide, by decide, by decide, by decide⟩, rfl, rfl⟩,
    (claimC7_clear clearInputs noReadFile okRemote
      ⟨by decide, by decide, by decide, by decide⟩ rfl).1,
    ((claimC7_clear clearInputs noReadFile okRemote
      ⟨by decide, by decide, by decide, by decide⟩ rfl).2.1 rfl).1,
    ((claimC7_clear clearInputs noReadFile okRemote
      ⟨by decide, by decide, by decide, by decide⟩ rfl).2.1 rfl).2⟩

/-! ### Claim C10: set with an empty merged mapping -/

/-- Claim C10: when at least one set source is supplied but the merged
mapping has no keys, the run returns after a warning: no remote call is
made (in particular bulkSet is never invoked even in replace mode), neither
updated_count nor failed_count is emitted, and the run succeeds. -/
theorem claimC10_empty_set (i : Inputs) (rf : String → String) (r : Remote)
    (hc : goodCreds i) (hop : i.operationRaw = "set")
    (hsrc : ¬(i.envFile = "" ∧ i.jsonVars = "" ∧ i.varsInput = ""))
    (hp : parseVariables i.envFile i.jsonVars i.varsInput rf = Except.ok []) :
    (runAction i rf r).calls = []
    ∧ (runAction i rf r).outputs = []
    ∧ (runAction i rf r).failedMsg = none := by
  obtain ⟨h1, h2, h3, h4⟩ := hc
  have hrun : runOp i rf r = ([], [], none) := by
    unfold runOp runSet
    simp [h1, h2, h3, h4, hop, hsrc, hp]
  refine ⟨?_, ?_, ?_⟩
  · show (runOp i rf r).1 = _
    rw [hrun]
  · show (runOp i rf r).2.1 = _
    rw [hrun]
  · show (runOp i rf r).2.2.map renderError = none
    rw [hrun]
    rfl

/-- Witness for C10: a replace-mode set run whose only source is a
comment-only env file makes no call, emits no outputs and succeeds. -/
theorem claimC10_empty_set_witness :
    (goodCreds setCommentInputs ∧ setCommentInputs.operationRaw = "set"
      ∧ ¬(setCommentInputs.envFile = "" ∧ setCommentInputs.jsonVars = ""
          ∧ setCommentInputs.varsInput = "")
      ∧ parseVariables setCommentInputs.envFile setCommentInputs.jsonVars
          setCommentInputs.varsInput commentReadFile = Except.ok []
      ∧ setCommentInputs.replaceRaw = "true")
    ∧ (runAction setCommentInputs commentReadFile okRemote).calls = []
    ∧ (runAction setCommentInputs commentReadFile okRemote).outputs = []
    ∧ (runAction setCommentInputs commentReadFile okRemote).failedMsg = none :=
  ⟨⟨⟨by decide, by decide, by decide, by decide⟩, rfl, by decide, by rfl, rfl⟩,
    (claimC10_empty_set setCommentInputs commentReadFile okRemote
      ⟨by decide, by decide, by decide, by decide⟩ rfl (by decide) (by rfl)).1,
    (claimC10_empty_set setCommentInputs commentReadFile okRemote
      ⟨by decide, by decide, by decide, by decide⟩ rfl (by decide) (by rfl)).2.1,
    (claimC10_empty_set setCommentInputs commentReadFile okRemote
      ⟨by decide, by decide, by decide, by decide⟩ rfl (by decide) (by rfl)).2.2⟩

/-- Witness for C9: the general fragment shape instantiated at KEY and the
`=`-containing value x=y. -/
theorem claimC9_inline_witness :
    ((∀ c ∈ "KEY".data, c ∉ ['=', ',', '\n'])
      ∧ (∀ c ∈ "x=y".data, c ∉ [',', '\n'])
      ∧ trimChars "KEY".data ≠ [])
    ∧ parseVariables "" "" ("KEY" ++ "=" ++ "x=y") noReadFile
      = Except.ok [(strTrim "KEY", Json.str (strTrim "x=y"))] :=
  ⟨⟨by decide, by decide, by decide⟩,
    claimC9_inline.1 "KEY" "x=y" noReadFile (by decide) (by decide) (by decide)⟩


end QuantEnvAction
